import Mathlib

/-! FaceSwipe: feed session logic of `app.js`

A shallow embedding of the feed page logic of `src/app.js` (`loadFeedFor`,
`renderFeed`, `escapeHtml`, `doLikeTop`, `skipTop`) together with theorems about it.

Modelling conventions:

* a Firestore document is its id plus the fields the application writes; a field that
  is absent from a document (JavaScript `undefined`) is `none`;
* the module-level variables `feedCards`, `currentIndex`, `currentUserData` and the
  `likes` collection are the components of an explicit state `FeedState`;
* `Math.random` is replaced by the list of the indices `j` it yields in the shuffle loop;
* a rejected store promise is an input flag of the call that awaits it;
* `doLikeTop` is `async`: besides the whole call (`doLikeTop`) its two halves around each
  `await` are given (`doLikeTopStart`, `doLikeTopResume`), and the event loop of the page
  (`pageStep`) may run other handlers while a call is suspended;
* JavaScript strings are `String`s, arrays are `List`s.
-/

namespace FaceSwipe

/-! ## Data model -/

/-- Fields of a document of the `users` collection, as returned by `doc.data()`. -/
structure UserData where
  username : Option String
  gender : Option String
  description : Option String
  photoURL : Option String
deriving DecidableEq, Repr

/-- A document snapshot of the `users` collection: `doc.id` and `doc.data()`. -/
structure UserDoc where
  id : String
  data : UserData
deriving DecidableEq, Repr

/-- An element of `feedCards`: the object `{ id: doc.id, ...d }`. -/
structure Card where
  id : String
  username : Option String
  gender : Option String
  description : Option String
  photoURL : Option String
deriving DecidableEq, Repr

/-- The object literal `{ id: doc.id, ...d }` pushed by `loadFeedFor`. -/
def Card.ofDoc (doc : UserDoc) : Card :=
  { id := doc.id, username := doc.data.username, gender := doc.data.gender,
    description := doc.data.description, photoURL := doc.data.photoURL }

/-- JavaScript truthiness of an optional string field: present and not `''`. -/
def truthy : Option String → Bool
  | some s => s != ""
  | none => false

/-- The expression `a || b` for an optional string `a` and a string `b`. -/
def orElse (a : Option String) (b : String) : String :=
  match a with
  | some s => if s != "" then s else b
  | none => b

/-! ## `loadFeedFor`: viewer gender and visibility filter -/

/-- The lookup `db.collection('users').doc(uid).get()`: `meSnap.exists ? meSnap.data() : null`. -/
def getUser (users : List UserDoc) (uid : String) : Option UserData :=
  (users.find? (fun doc => doc.id == uid)).map (fun doc => doc.data)

/-- The line `const myGender = currentUserData?.gender || 'other'`. -/
def myGender (currentUserData : Option UserData) : String :=
  match currentUserData with
  | some d => orElse d.gender "other"
  | none => "other"

/-- The line `const show = (myGender === 'other') ? true : (d.gender !== myGender)`. -/
def showFor (myGender : String) (d : UserData) : Bool :=
  if myGender == "other" then true else d.gender != some myGender

/-- One iteration of the `allUsersSnap.forEach` callback of `loadFeedFor`. -/
def pushIfVisible (uid myGender : String) (feedCards : List Card) (doc : UserDoc) : List Card :=
  if doc.id == uid then feedCards
  else if showFor myGender doc.data && truthy doc.data.photoURL then feedCards ++ [Card.ofDoc doc]
  else feedCards

/-- The candidate list of `loadFeedFor` before the shuffle: `feedCards = []` followed by
the `forEach` over all user documents. -/
def collectFeedCards (uid myGender : String) (users : List UserDoc) : List Card :=
  users.foldl (pushIfVisible uid myGender) []

/-- The visibility condition in the words of the specification. -/
def visibleTo (uid g : String) (p : UserDoc) : Prop :=
  p.id ≠ uid ∧ (∃ url, p.data.photoURL = some url ∧ url ≠ "") ∧
    (g = "other" ∨ p.data.gender ≠ some g)

instance (uid g : String) (p : UserDoc) : Decidable (visibleTo uid g p) := by
  unfold visibleTo
  have : Decidable (∃ url, p.data.photoURL = some url ∧ url ≠ "") :=
    match h : p.data.photoURL with
    | none => isFalse (by simp)
    | some s => if hs : s = "" then isFalse (by simp [hs]) else isTrue ⟨s, rfl, hs⟩
  infer_instance

/-! ## `loadFeedFor`: Fisher-Yates shuffle -/

/-- The destructuring assignment `[a[i], a[j]] = [a[j], a[i]]`: the right-hand side is
evaluated first, then `a[i]` and `a[j]` are assigned in this order. The loop only calls it
with `j ≤ i < a.length`; for an index outside the array the list is returned as it is. -/
def swap {α : Type} (a : List α) (i j : Nat) : List α :=
  match a[i]?, a[j]? with
  | some x, some y => (a.set i y).set j x
  | _, _ => a

/-- The loop `for (let i = ...; i > 0; i--)` of `loadFeedFor`, entered with counter `i`.
The list `draws` holds the successive values of `Math.floor(Math.random() * (i + 1))`, the
first one for the largest `i`; the loop stops when the counter reaches `0`. -/
def shuffleFrom {α : Type} : Nat → List Nat → List α → List α
  | 0, _, a => a
  | _ + 1, [], a => a
  | i + 1, j :: draws, a => shuffleFrom i draws (swap a (i + 1) j)

/-- The shuffle of `loadFeedFor`: the loop entered with `i = feedCards.length - 1`. -/
def shuffle {α : Type} (draws : List Nat) (a : List α) : List α :=
  shuffleFrom (a.length - 1) draws a

/-- A draw sequence for a loop entered with counter `i`: one draw `j ∈ {0, ..., i}` for
each counter value `i, i - 1, ..., 1`, and no further draw. -/
def validDraws : Nat → List Nat → Bool
  | 0, draws => draws.isEmpty
  | _ + 1, [] => false
  | i + 1, j :: draws => decide (j ≤ i + 1) && validDraws i draws

/-- All draw sequences for a loop entered with counter `i`. -/
def allDraws : Nat → List (List Nat)
  | 0 => [[]]
  | i + 1 => (List.range (i + 2)).flatMap (fun j => (allDraws i).map (fun draws => j :: draws))

/-! ## Session state and the `likes` collection -/

/-- A document of the `likes` collection as written by `doLikeTop`; `timestamp` is the
value the server substitutes for `FieldValue.serverTimestamp()`. -/
structure LikeRecord where
  likedId : String
  likedBy : String
  likedByName : String
  timestamp : Nat
deriving DecidableEq, Repr

/-- The `likes` collection: document ids with their documents. -/
abbrev LikeStore := List (String × LikeRecord)

/-- The read `db.collection('likes').doc(docId).get()`; `none` is `!docSnap.exists`. -/
def getLike (likes : LikeStore) (docId : String) : Option LikeRecord :=
  (likes.find? (fun entry => entry.1 == docId)).map (fun entry => entry.2)

/-- The write `db.collection('likes').doc(docId).set(data)`: replaces the document with this
id, or creates it. -/
def setLike (docId : String) (data : LikeRecord) : LikeStore → LikeStore
  | [] => [(docId, data)]
  | entry :: rest =>
    if entry.1 == docId then (docId, data) :: rest else entry :: setLike docId data rest

/-- The module-level variables of the feed page together with the `likes` collection. -/
structure FeedState where
  feedCards : List Card
  currentIndex : Nat
  currentUserData : Option UserData
  likes : LikeStore
deriving DecidableEq, Repr

/-- The signed-in user `auth.currentUser`. -/
structure AuthUser where
  uid : String
  email : Option String
deriving DecidableEq, Repr

/-- How a call of `loadFeedFor` ends: normally, or in its `catch` block
(`alert('Could not load feed: ...')`). -/
inductive LoadOutcome where
  | loaded
  | failed
deriving DecidableEq, Repr

/-! ## `escapeHtml` -/

/-- The character `"`. -/
def dquote : Char := Char.ofNat 34

/-- The character `'`. -/
def squote : Char := Char.ofNat 39

/-- The backtick character. -/
def btick : Char := Char.ofNat 96

/-- The character class of the regular expression in `escapeHtml`. -/
def htmlSpecial : List Char := ['&', '<', '>', dquote, squote, btick]

/-- The object literal that `escapeHtml` indexes with the matched character. -/
def entityTable : List (Char × String) :=
  [('&', "&amp;"), ('<', "&lt;"), ('>', "&gt;"), (dquote, "&quot;"),
   (squote, "&#39;"), (btick, "&#96;")]

/-- What `replace` puts in place of one character: the table entry for a character of the
class (`undefined` is printed as such when the table has no entry), the character itself
otherwise. -/
def replaceChar (m : Char) : List Char :=
  if m ∈ htmlSpecial then ((entityTable.lookup m).getD "undefined").data else [m]

/-- The function `escapeHtml(s)`. -/
def escapeHtml (s : String) : String :=
  if s = "" then "" else String.mk (s.data.flatMap replaceChar)

/-- The six entities that `escapeHtml` produces. -/
def entities : List String := ["&amp;", "&lt;", "&gt;", "&quot;", "&#39;", "&#96;"]

/-! ## `renderFeed` -/

/-- The part of a rendered card that depends on the profile. -/
structure RenderedCard where
  profile : Card
  offset : Nat
  zIndex : Nat
  title : String
  subtitle : String
deriving DecidableEq, Repr

/-- The constant `maxStack` of `renderFeed`. -/
def maxStack : Nat := 3

/-- The body of the `for` loop of `renderFeed` for the profile at index `i`. -/
def renderCard (currentIndex i : Nat) (profile : Card) : RenderedCard :=
  { profile := profile
    offset := i - currentIndex
    zIndex := 100 - (i - currentIndex)
    title := escapeHtml (orElse profile.username "User")
    subtitle := escapeHtml (orElse profile.description "") }

/-- The loop `for (let i = currentIndex; i < Math.min(currentIndex + maxStack,
feedCards.length); i++)`, entered with counter `i` and at most `fuel` iterations left. -/
def renderFrom (feedCards : List Card) (currentIndex : Nat) : Nat → Nat → List RenderedCard
  | 0, _ => []
  | fuel + 1, i =>
    if i < min (currentIndex + maxStack) feedCards.length then
      match feedCards[i]? with
      | some profile => renderCard currentIndex i profile :: renderFrom feedCards currentIndex fuel (i + 1)
      | none => []
    else []

/-- The function `renderFeed()`: the cards appended to `#feedArea`, with the state it leaves. -/
def renderFeed (s : FeedState) : FeedState × List RenderedCard :=
  if s.feedCards.length = 0 then (s, [])
  else (s, renderFrom s.feedCards s.currentIndex maxStack s.currentIndex)

/-- The slice `candidates[cursor .. min(cursor + depth, length))` of the specification. -/
def visibleStack (candidates : List Card) (cursor depth : Nat) : List Card :=
  (candidates.take (min (cursor + depth) candidates.length)).drop cursor

/-! ## `loadFeedFor` -/

/-- The function `loadFeedFor(user)` run in state `s` against the `users` collection.
`meGetFails` and `allGetFails` say whether the first and the second `get()` reject. -/
def loadFeedFor (users : List UserDoc) (uid : String) (meGetFails allGetFails : Bool)
    (draws : List Nat) (s : FeedState) : FeedState × LoadOutcome :=
  if meGetFails then (s, LoadOutcome.failed)
  else
    let s1 := { s with currentUserData := getUser users uid }
    let g := myGender s1.currentUserData
    if allGetFails then (s1, LoadOutcome.failed)
    else
      let s2 := { s1 with feedCards := shuffle draws (collectFeedCards uid g users) }
      let s3 := { s2 with currentIndex := 0 }
      ((renderFeed s3).1, LoadOutcome.loaded)

/-! ## `doLikeTop` and `skipTop` -/

/-- The current card `feedCards[currentIndex]`, `none` when the index is past the end. -/
def currentCard (s : FeedState) : Option Card := s.feedCards[s.currentIndex]?

/-- The template literal that builds the id of a like document. -/
def likeDocId (likedId likedBy : String) : String := likedId ++ "_" ++ likedBy

/-- The expression `email.split('@')[0]`. -/
def emailLocalPart (email : String) : String :=
  String.mk (email.data.takeWhile (fun c => c != '@'))

/-- The expression
`currentUserData?.username || (me.email && me.email.split('@')[0]) || 'Someone'`. -/
def likedByName (currentUserData : Option UserData) (me : AuthUser) : String :=
  let fromEmail : Option String :=
    match me.email with
    | some e => if e != "" then some (emailLocalPart e) else none
    | none => none
  orElse (currentUserData.bind (fun d => d.username)) (orElse fromEmail "Someone")

/-- What a call of `doLikeTop` receives from outside the page state. -/
structure LikeEnv where
  me : Option AuthUser
  getFails : Bool
  setFails : Bool
  serverTime : Nat
deriving DecidableEq, Repr

/-- How a call of `doLikeTop` ends: the early `return` past the end of the feed, the alert
`Login required`, the toast `You already liked this profile.`, the toast `Liked`, or the
`catch` block (`alert('Could not like: ...')`). -/
inductive LikeOutcome where
  | feedExhausted
  | loginRequired
  | alreadyLiked
  | liked
  | storeError
deriving DecidableEq, Repr

/-- The function `doLikeTop()`. -/
def doLikeTop (env : LikeEnv) (s : FeedState) : FeedState × LikeOutcome :=
  if h : s.currentIndex >= s.feedCards.length then (s, LikeOutcome.feedExhausted)
  else
    let target := s.feedCards[s.currentIndex]
    match env.me with
    | none => (s, LikeOutcome.loginRequired)
    | some me =>
      let docId := likeDocId target.id me.uid
      if env.getFails then (s, LikeOutcome.storeError)
      else
        match getLike s.likes docId with
        | some _ => (s, LikeOutcome.alreadyLiked)
        | none =>
          if env.setFails then (s, LikeOutcome.storeError)
          else
            let data : LikeRecord :=
              { likedId := target.id, likedBy := me.uid,
                likedByName := likedByName s.currentUserData me,
                timestamp := env.serverTime }
            let s1 := { s with likes := setLike docId data s.likes }
            let s2 := { s1 with currentIndex := s1.currentIndex + 1 }
            ((renderFeed s2).1, LikeOutcome.liked)

/-- How a call of `skipTop` ends: the toast `No more profiles`, or the advance. -/
inductive SkipOutcome where
  | feedExhausted
  | advanced
deriving DecidableEq, Repr

/-- The function `skipTop()`. -/
def skipTop (s : FeedState) : FeedState × SkipOutcome :=
  if s.currentIndex >= s.feedCards.length then (s, SkipOutcome.feedExhausted)
  else
    let s1 := { s with currentIndex := s.currentIndex + 1 }
    ((renderFeed s1).1, SkipOutcome.advanced)

/-- A call of `doLikeTop` that is suspended at one of its two `await`s, with the local
variables it holds: at `await docRef.get()` the `target` and `me` it read before
suspending, at `await docRef.set(...)` also the `likedByName` it computed in between. -/
inductive LikeCall where
  | awaitingGet (target : Card) (me : AuthUser)
  | awaitingSet (target : Card) (me : AuthUser) (likedByName : String)
deriving DecidableEq, Repr

/-- The part of `doLikeTop` that runs when the handler is called, up to the first `await`:
the bound test, the reads of `feedCards[currentIndex]` and `auth.currentUser`, and the
request `docRef.get()`. `none` when the call returns before it awaits. -/
def doLikeTopStart (me : Option AuthUser) (s : FeedState) : Option LikeCall :=
  if h : s.currentIndex >= s.feedCards.length then none
  else
    let target := s.feedCards[s.currentIndex]
    match me with
    | none => none
    | some me => some (LikeCall.awaitingGet target me)

/-- The part of `doLikeTop` that runs when the promise it awaits settles, in the state the
page has at that moment: after `docRef.get()` the test of `docSnap.exists` and the request
`docRef.set(...)`; after `docRef.set(...)` the write itself, `currentIndex++` and
`renderFeed()`. A rejected promise (`fails`) ends the call in its `catch` block. The second
component is the suspended call that remains, if any. -/
def doLikeTopResume (call : LikeCall) (fails : Bool) (serverTime : Nat) (s : FeedState) :
    FeedState × Option LikeCall :=
  match call with
  | LikeCall.awaitingGet target me =>
    if fails then (s, none)
    else
      match getLike s.likes (likeDocId target.id me.uid) with
      | some _ => (s, none)
      | none => (s, some (LikeCall.awaitingSet target me (likedByName s.currentUserData me)))
  | LikeCall.awaitingSet target me name =>
    if fails then (s, none)
    else
      let data : LikeRecord :=
        { likedId := target.id, likedBy := me.uid, likedByName := name,
          timestamp := serverTime }
      let s1 := { s with likes := setLike (likeDocId target.id me.uid) data s.likes }
      let s2 := { s1 with currentIndex := s1.currentIndex + 1 }
      ((renderFeed s2).1, none)

/-- The feed page between two turns of the event loop: the page state and the calls of
`doLikeTop` that are suspended at an `await`. -/
structure Page where
  state : FeedState
  suspended : List LikeCall
deriving DecidableEq, Repr

/-- One turn of the event loop of a loaded feed page: a click on the like button (the
handler `() => doLikeTop()` starts a call and does not wait for it), a click on the skip
button, the settling of the promise that the `k`-th suspended call awaits, or a change of
the `likes` collection made elsewhere. -/
inductive Event where
  | clickLike (me : Option AuthUser)
  | clickSkip
  | settle (k : Nat) (fails : Bool) (serverTime : Nat)
  | likesChanged (likes : LikeStore)
deriving Repr

/-- The page after one turn of the event loop. -/
def pageStep (p : Page) : Event → Page
  | Event.clickLike me =>
    match doLikeTopStart me p.state with
    | some call => { p with suspended := p.suspended ++ [call] }
    | none => p
  | Event.clickSkip => { p with state := (skipTop p.state).1 }
  | Event.settle k fails serverTime =>
    match p.suspended[k]? with
    | none => p
    | some call =>
      match doLikeTopResume call fails serverTime p.state with
      | (s, some next) => { state := s, suspended := p.suspended.set k next }
      | (s, none) => { state := s, suspended := p.suspended.eraseIdx k }
  | Event.likesChanged likes => { p with state := { p.state with likes := likes } }

/-- The page after a sequence of turns of the event loop. -/
def pageRun (p : Page) (events : List Event) : Page :=
  events.foldl pageStep p

/-- A call of `doLikeTop` whose two promises settle before any other turn of the event loop:
the start of the call followed by its resumptions. -/
def doLikeTopAlone (env : LikeEnv) (s : FeedState) : FeedState :=
  match doLikeTopStart env.me s with
  | none => s
  | some call =>
    match doLikeTopResume call env.getFails env.serverTime s with
    | (s1, none) => s1
    | (s1, some next) => (doLikeTopResume next env.setFails env.serverTime s1).1

/-- Every like document sits under the id built from its own two ids. -/
def keyedByPair (likes : LikeStore) : Prop :=
  ∀ entry ∈ likes, entry.1 = likeDocId entry.2.likedId entry.2.likedBy

/-- The like documents of the pair `(likedId, likedBy)`. -/
def likesOfPair (likes : LikeStore) (likedId likedBy : String) : LikeStore :=
  likes.filter (fun entry => entry.2.likedId == likedId && entry.2.likedBy == likedBy)

/-- The record that `doLikeTop` writes for the card `target` and the signed-in user `me`. -/
def likeData (env : LikeEnv) (s : FeedState) (target : Card) (me : AuthUser) : LikeRecord :=
  { likedId := target.id, likedBy := me.uid,
    likedByName := likedByName s.currentUserData me,
    timestamp := env.serverTime }

/-- The string contains no `_` character. -/
def noUnderscore (id : String) : Prop := '_' ∉ id.data

instance (id : String) : Decidable (noUnderscore id) := by
  unfold noUnderscore
  infer_instance

/-! ## Sample data -/

/-- Profile `A` of the scenario: female, with a photo. -/
def profileA : UserDoc :=
  { id := "A", data := { username := some "Ann", gender := some "female",
                         description := none, photoURL := some "https://img/a.png" } }

/-- Profile `B` of the scenario: male, with a photo. -/
def profileB : UserDoc :=
  { id := "B", data := { username := some "Bob", gender := some "male",
                         description := none, photoURL := some "https://img/b.png" } }

/-- Profile `C` of the scenario: female, no photo yet. -/
def profileC : UserDoc :=
  { id := "C", data := { username := some "Cat", gender := some "female",
                         description := some "", photoURL := some "" } }

/-- A male viewer with a photo. -/
def profileV : UserDoc :=
  { id := "V", data := { username := some "Vic", gender := some "male",
                         description := none, photoURL := some "https://img/v.png" } }

/-- The signed-in user of the sample session. -/
def sampleUser : AuthUser := { uid := "V", email := some "vic@example.org" }

/-- The module-level variables before `loadFeedFor` has run, with an empty `likes` collection. -/
def freshState : FeedState :=
  { feedCards := [], currentIndex := 0, currentUserData := none, likes := [] }

/-- A loaded session of the sample viewer over the cards `A` and `B`. -/
def sampleState : FeedState :=
  { feedCards := [Card.ofDoc profileA, Card.ofDoc profileB], currentIndex := 0,
    currentUserData := some profileV.data, likes := [] }

/-- A call environment in which the sample user is signed in and the store answers. -/
def sampleEnv : LikeEnv :=
  { me := some sampleUser, getFails := false, setFails := false, serverTime := 1700000000 }

/-! ## Helper lemmas -/

theorem truthy_iff (o : Option String) : truthy o = true ↔ ∃ url, o = some url ∧ url ≠ "" := by
  cases o <;> simp [truthy]

theorem pushIfVisible_eq (uid g : String) (acc : List Card) (doc : UserDoc) :
    pushIfVisible uid g acc doc
      = acc ++ (if visibleTo uid g doc then [Card.ofDoc doc] else []) := by
  have key : visibleTo uid g doc ↔
      (doc.id ≠ uid ∧ truthy doc.data.photoURL = true ∧
        (g = "other" ∨ doc.data.gender ≠ some g)) := by
    unfold visibleTo
    rw [truthy_iff]
  by_cases hv : visibleTo uid g doc
  · rw [if_pos hv]
    obtain ⟨h1, h3, h4⟩ := key.mp hv
    rcases h4 with h4 | h4 <;> simp [pushIfVisible, showFor, h1, h3, h4]
  · rw [if_neg hv]
    rw [key] at hv
    unfold pushIfVisible showFor
    by_cases h1 : doc.id = uid
    · simp [h1]
    · by_cases h3 : truthy doc.data.photoURL = true
      · have h4 : ¬ (g = "other" ∨ doc.data.gender ≠ some g) := fun h => hv ⟨h1, h3, h⟩
        push_neg at h4
        simp [h1, h3, h4.1, h4.2]
      · simp [h1, h3]

theorem foldl_pushIfVisible (uid g : String) (users : List UserDoc) (acc : List Card) :
    users.foldl (pushIfVisible uid g) acc
      = acc ++ (users.filter (fun p => decide (visibleTo uid g p))).map Card.ofDoc := by
  induction users generalizing acc with
  | nil => simp
  | cons doc rest ih =>
    rw [List.foldl_cons, ih, pushIfVisible_eq]
    by_cases h : visibleTo uid g doc <;> simp [h, List.filter_cons]

theorem collectFeedCards_eq (uid g : String) (users : List UserDoc) :
    collectFeedCards uid g users
      = (users.filter (fun p => decide (visibleTo uid g p))).map Card.ofDoc := by
  simp [collectFeedCards, foldl_pushIfVisible]

theorem renderFeed_fst (s : FeedState) : (renderFeed s).1 = s := by
  unfold renderFeed
  split <;> rfl

theorem ofDoc_injective : Function.Injective Card.ofDoc := by
  intro p q h
  cases p with
  | mk pid pd =>
    cases q with
    | mk qid qd =>
      cases pd; cases qd
      simp only [Card.ofDoc, Card.mk.injEq] at h
      obtain ⟨h1, h2, h3, h4, h5⟩ := h
      subst h1 h2 h3 h4 h5
      rfl

theorem mem_collectFeedCards (uid g : String) (users : List UserDoc) (c : Card) :
    c ∈ collectFeedCards uid g users ↔ ∃ p ∈ users, visibleTo uid g p ∧ Card.ofDoc p = c := by
  rw [collectFeedCards_eq]
  simp only [List.mem_map, List.mem_filter, decide_eq_true_eq]
  constructor
  · rintro ⟨p, ⟨hp, hv⟩, rfl⟩
    exact ⟨p, hp, hv, rfl⟩
  · rintro ⟨p, hp, hv, rfl⟩
    exact ⟨p, ⟨hp, hv⟩, rfl⟩

theorem renderFrom_profiles (cards : List Card) (c : Nat) :
    ∀ (fuel i : Nat), min (c + maxStack) cards.length ≤ i + fuel →
      (renderFrom cards c fuel i).map (fun r => r.profile)
        = (cards.take (min (c + maxStack) cards.length)).drop i := by
  intro fuel
  induction fuel with
  | zero =>
    intro i h
    have hlen : (cards.take (min (c + maxStack) cards.length)).length ≤ i := by
      rw [List.length_take]
      omega
    simp [renderFrom, List.drop_eq_nil_of_le hlen]
  | succ fuel ih =>
    intro i h
    unfold renderFrom
    by_cases hi : i < min (c + maxStack) cards.length
    · have hil : i < cards.length := lt_of_lt_of_le hi (Nat.min_le_right _ _)
      have hit : i < (cards.take (min (c + maxStack) cards.length)).length := by
        rw [List.length_take]
        omega
      rw [if_pos hi, List.getElem?_eq_getElem hil]
      simp only [List.map_cons]
      rw [ih (i + 1) (by omega), List.drop_eq_getElem_cons hit]
      simp [renderCard, List.getElem_take]
    · rw [if_neg hi]
      have hlen : (cards.take (min (c + maxStack) cards.length)).length ≤ i := by
        rw [List.length_take]
        omega
      simp [List.drop_eq_nil_of_le hlen]

theorem renderFeed_profiles (s : FeedState) :
    (renderFeed s).2.map (fun r => r.profile)
      = visibleStack s.feedCards s.currentIndex maxStack := by
  unfold renderFeed visibleStack
  by_cases h : s.feedCards.length = 0
  · rw [if_pos h]
    have hnil : s.feedCards = [] := List.eq_nil_of_length_eq_zero h
    simp [hnil]
  · rw [if_neg h]
    exact renderFrom_profiles s.feedCards s.currentIndex maxStack s.currentIndex
      (by have := Nat.min_le_left (s.currentIndex + maxStack) s.feedCards.length; omega)

theorem currentCard_eq_some {s : FeedState} {t : Card} (h : currentCard s = some t) :
    ∃ hlt : s.currentIndex < s.feedCards.length, s.feedCards[s.currentIndex] = t := by
  unfold currentCard at h
  obtain ⟨hlt, ht⟩ := List.getElem?_eq_some_iff.mp h
  exact ⟨hlt, ht⟩

theorem doLikeTop_of_current (env : LikeEnv) (s : FeedState) (t : Card) (me : AuthUser)
    (hcur : currentCard s = some t) (hme : env.me = some me) :
    doLikeTop env s =
      if env.getFails then (s, LikeOutcome.storeError)
      else
        match getLike s.likes (likeDocId t.id me.uid) with
        | some _ => (s, LikeOutcome.alreadyLiked)
        | none =>
          if env.setFails then (s, LikeOutcome.storeError)
          else
            ({ s with likes := setLike (likeDocId t.id me.uid) (likeData env s t me) s.likes,
                      currentIndex := s.currentIndex + 1 }, LikeOutcome.liked) := by
  obtain ⟨hlt, ht⟩ := currentCard_eq_some hcur
  unfold doLikeTop
  rw [dif_neg (Nat.not_le.mpr hlt)]
  simp only [hme, ht, renderFeed_fst, likeData]

theorem getLike_eq_none_iff (likes : LikeStore) (k : String) :
    getLike likes k = none ↔ ∀ entry ∈ likes, entry.1 ≠ k := by
  unfold getLike
  simp [List.find?_eq_none]

theorem setLike_of_absent (k : String) (d : LikeRecord) (likes : LikeStore)
    (h : getLike likes k = none) : setLike k d likes = likes ++ [(k, d)] := by
  rw [getLike_eq_none_iff] at h
  induction likes with
  | nil => rfl
  | cons entry rest ih =>
    have h1 : entry.1 ≠ k := h entry (List.mem_cons_self _ _)
    have h2 : ∀ e ∈ rest, e.1 ≠ k := fun e he => h e (List.mem_cons_of_mem _ he)
    simp [setLike, h1, ih h2]

theorem getLike_append_new (k : String) (d : LikeRecord) (likes : LikeStore)
    (h : getLike likes k = none) : getLike (likes ++ [(k, d)]) k = some d := by
  unfold getLike at *
  rw [List.find?_append]
  simp only [Option.map_eq_none'] at h
  simp [h]

theorem filter_key_append_new (k : String) (d : LikeRecord) (likes : LikeStore)
    (h : getLike likes k = none) :
    (likes ++ [(k, d)]).filter (fun entry => entry.1 == k) = [(k, d)] := by
  rw [getLike_eq_none_iff] at h
  rw [List.filter_append]
  have : likes.filter (fun entry => entry.1 == k) = [] := by
    rw [List.filter_eq_nil_iff]
    intro e he
    simpa using h e he
  simp [this]

theorem likesOfPair_of_absent (likes : LikeStore) (t v : String) (hk : keyedByPair likes)
    (h : getLike likes (likeDocId t v) = none) : likesOfPair likes t v = [] := by
  rw [getLike_eq_none_iff] at h
  unfold likesOfPair
  rw [List.filter_eq_nil_iff]
  intro e he hcontra
  simp only [Bool.and_eq_true, beq_iff_eq] at hcontra
  apply h e he
  rw [hk e he, hcontra.1, hcontra.2]

theorem likeDocId_data (t v : String) : (likeDocId t v).data = t.data ++ '_' :: v.data := by
  simp [likeDocId, String.data_append]

theorem append_sep_inj {sep : Char} :
    ∀ (l₁ l₂ r₁ r₂ : List Char), sep ∉ l₁ → sep ∉ l₂ →
      l₁ ++ sep :: r₁ = l₂ ++ sep :: r₂ → l₁ = l₂ ∧ r₁ = r₂ := by
  intro l₁
  induction l₁ with
  | nil =>
    intro l₂ r₁ r₂ _ h₂ h
    cases l₂ with
    | nil => simpa using h
    | cons b l₂ =>
      simp only [List.nil_append, List.cons_append, List.cons.injEq] at h
      exact absurd (h.1 ▸ List.mem_cons_self _ _) h₂
  | cons a l₁ ih =>
    intro l₂ r₁ r₂ h₁ h₂ h
    cases l₂ with
    | nil =>
      simp only [List.nil_append, List.cons_append, List.cons.injEq] at h
      exact absurd (h.1 ▸ List.mem_cons_self _ _) h₁
    | cons b l₂ =>
      simp only [List.cons_append, List.cons.injEq] at h
      obtain ⟨hl, hr⟩ := ih l₂ r₁ r₂ (fun hm => h₁ (List.mem_cons_of_mem _ hm))
        (fun hm => h₂ (List.mem_cons_of_mem _ hm)) h.2
      exact ⟨by rw [h.1, hl], hr⟩

theorem likeDocId_inj (t₁ v₁ t₂ v₂ : String) (h₁ : noUnderscore t₁) (h₂ : noUnderscore t₂)
    (h : likeDocId t₁ v₁ = likeDocId t₂ v₂) : t₁ = t₂ ∧ v₁ = v₂ := by
  have hd := congrArg String.data h
  rw [likeDocId_data, likeDocId_data] at hd
  obtain ⟨ht, hv⟩ := append_sep_inj _ _ _ _ h₁ h₂ hd
  exact ⟨String.ext ht, String.ext hv⟩

theorem doLikeTop_cursor (env : LikeEnv) (s : FeedState) :
    (doLikeTop env s).1.feedCards = s.feedCards
    ∧ ((doLikeTop env s).1.currentIndex = s.currentIndex
        ∨ (s.currentIndex < s.feedCards.length
            ∧ (doLikeTop env s).1.currentIndex = s.currentIndex + 1)) := by
  unfold doLikeTop
  by_cases h : s.currentIndex ≥ s.feedCards.length
  · rw [dif_pos h]
    exact ⟨rfl, Or.inl rfl⟩
  · rw [dif_neg h]
    simp only [renderFeed_fst]
    split
    · exact ⟨rfl, Or.inl rfl⟩
    · split
      · exact ⟨rfl, Or.inl rfl⟩
      · split
        · exact ⟨rfl, Or.inl rfl⟩
        · split
          · exact ⟨rfl, Or.inl rfl⟩
          · exact ⟨rfl, Or.inr ⟨Nat.not_le.mp h, rfl⟩⟩

theorem skipTop_cursor (s : FeedState) :
    (skipTop s).1.feedCards = s.feedCards
    ∧ ((skipTop s).1.currentIndex = s.currentIndex
        ∨ (s.currentIndex < s.feedCards.length
            ∧ (skipTop s).1.currentIndex = s.currentIndex + 1)) := by
  unfold skipTop
  by_cases h : s.currentIndex ≥ s.feedCards.length
  · rw [if_pos h]
    exact ⟨rfl, Or.inl rfl⟩
  · rw [if_neg h]
    exact ⟨by simp [renderFeed_fst], Or.inr ⟨Nat.not_le.mp h, by simp [renderFeed_fst]⟩⟩

theorem doLikeTopAlone_eq (env : LikeEnv) (s : FeedState) :
    doLikeTopAlone env s = (doLikeTop env s).1 := by
  unfold doLikeTopAlone doLikeTopStart doLikeTop
  by_cases h : s.currentIndex ≥ s.feedCards.length
  · simp [h]
  · simp only [dif_neg h]
    cases hme : env.me with
    | none => rfl
    | some me =>
      simp only [doLikeTopResume]
      cases hg : env.getFails with
      | true => rfl
      | false =>
        cases hl : getLike s.likes (likeDocId s.feedCards[s.currentIndex].id me.uid) with
        | some r => simp
        | none =>
          cases hs : env.setFails with
          | true => simp
          | false => simp

theorem doLikeTopResume_cursor (call : LikeCall) (fails : Bool) (t : Nat) (s : FeedState) :
    (doLikeTopResume call fails t s).1.feedCards = s.feedCards
    ∧ ((doLikeTopResume call fails t s).1.currentIndex = s.currentIndex
        ∨ (doLikeTopResume call fails t s).1.currentIndex = s.currentIndex + 1) := by
  cases call with
  | awaitingGet target me =>
    simp only [doLikeTopResume]
    split
    · exact ⟨rfl, Or.inl rfl⟩
    · split <;> exact ⟨rfl, Or.inl rfl⟩
  | awaitingSet target me name =>
    simp only [doLikeTopResume]
    split
    · exact ⟨rfl, Or.inl rfl⟩
    · rw [renderFeed_fst]
      exact ⟨rfl, Or.inr rfl⟩

theorem pageStep_cursor (p : Page) (e : Event) :
    (pageStep p e).state.feedCards = p.state.feedCards
    ∧ ((pageStep p e).state.currentIndex = p.state.currentIndex
        ∨ (pageStep p e).state.currentIndex = p.state.currentIndex + 1) := by
  cases e with
  | clickLike me =>
    simp only [pageStep]
    split <;> exact ⟨rfl, Or.inl rfl⟩
  | clickSkip =>
    simp only [pageStep]
    obtain ⟨hf, hc⟩ := skipTop_cursor p.state
    refine ⟨hf, ?_⟩
    rcases hc with hc | ⟨-, hc⟩
    · exact Or.inl hc
    · exact Or.inr hc
  | settle k fails t =>
    simp only [pageStep]
    split
    · exact ⟨rfl, Or.inl rfl⟩
    · rename_i call _
      have h := doLikeTopResume_cursor call fails t p.state
      split
      · rename_i s next hr
        rw [hr] at h
        exact h
      · rename_i s hr
        rw [hr] at h
        exact h
  | likesChanged likes => exact ⟨rfl, Or.inl rfl⟩

theorem replaceChar_of_special (c : Char) (h : c ∈ htmlSpecial) :
    ∃ e ∈ entities, replaceChar c = e.data ∧ e.data.head? = some '&' ∧
      (∀ x ∈ e.data.tail, x ≠ '&') ∧ (∀ x ∈ e.data, x ∉ ['<', '>', dquote, squote, btick]) := by
  simp only [htmlSpecial, List.mem_cons, List.mem_singleton, List.not_mem_nil, or_false] at h
  rcases h with h | h | h | h | h | h <;> subst h
  · exact ⟨"&amp;", by decide, by decide, by decide, by decide, by decide⟩
  · exact ⟨"&lt;", by decide, by decide, by decide, by decide, by decide⟩
  · exact ⟨"&gt;", by decide, by decide, by decide, by decide, by decide⟩
  · exact ⟨"&quot;", by decide, by decide, by decide, by decide, by decide⟩
  · exact ⟨"&#39;", by decide, by decide, by decide, by decide, by decide⟩
  · exact ⟨"&#96;", by decide, by decide, by decide, by decide, by decide⟩

theorem replaceChar_of_plain (c : Char) (h : c ∉ htmlSpecial) : replaceChar c = [c] := by
  unfold replaceChar
  rw [if_neg h]

theorem flatMap_replaceChar_clean (l : List Char) :
    ∀ x ∈ l.flatMap replaceChar, x ∉ ['<', '>', dquote, squote, btick] := by
  intro x hx
  obtain ⟨c, -, hxc⟩ := List.mem_flatMap.mp hx
  by_cases hc : c ∈ htmlSpecial
  · obtain ⟨e, -, he, -, -, hclean⟩ := replaceChar_of_special c hc
    rw [he] at hxc
    exact hclean x hxc
  · rw [replaceChar_of_plain c hc, List.mem_singleton] at hxc
    subst hxc
    intro hmem
    apply hc
    simp only [htmlSpecial, List.mem_cons, List.mem_singleton, List.not_mem_nil, or_false]
      at hmem ⊢
    tauto

theorem flatMap_replaceChar_amp (l : List Char) :
    ∀ i, (l.flatMap replaceChar)[i]? = some '&' →
      ∃ e ∈ entities, e.data <+: (l.flatMap replaceChar).drop i := by
  induction l with
  | nil => intro i h; simp at h
  | cons c rest ih =>
    intro i h
    rw [List.flatMap_cons] at h ⊢
    by_cases hi : i < (replaceChar c).length
    · rw [List.getElem?_append_left hi] at h
      by_cases hc : c ∈ htmlSpecial
      · obtain ⟨e, hmem, he, hhead, htail, -⟩ := replaceChar_of_special c hc
        rw [he] at h
        cases i with
        | zero =>
          refine ⟨e, hmem, ?_⟩
          rw [List.drop_zero, he]
          exact List.prefix_append _ _
        | succ k =>
          exfalso
          have hk : e.data.tail[k]? = some '&' := by
            rw [List.getElem?_tail]
            exact h
          exact htail '&' (List.getElem?_mem hk) rfl
      · rw [replaceChar_of_plain c hc] at h hi
        have hi0 : i = 0 := by simpa using hi
        subst hi0
        simp only [List.getElem?_cons_zero, Option.some.injEq] at h
        subst h
        exact absurd (by decide) hc
    · have hle : (replaceChar c).length ≤ i := Nat.le_of_not_lt hi
      rw [List.getElem?_append_right hle] at h
      obtain ⟨e, hmem, hpre⟩ := ih _ h
      refine ⟨e, hmem, ?_⟩
      rw [List.drop_append_eq_append_drop, List.drop_eq_nil_of_le hle, List.nil_append]
      exact hpre

theorem flatMap_replaceChar_plain (l : List Char) (h : ∀ c ∈ l, c ∉ htmlSpecial) :
    l.flatMap replaceChar = l := by
  induction l with
  | nil => rfl
  | cons c rest ih =>
    rw [List.flatMap_cons, replaceChar_of_plain c (h c (List.mem_cons_self _ _)),
      ih (fun x hx => h x (List.mem_cons_of_mem _ hx))]
    rfl

theorem escapeHtml_data (s : String) : (escapeHtml s).data = s.data.flatMap replaceChar := by
  unfold escapeHtml
  by_cases h : s = ""
  · subst h
    rfl
  · rw [if_neg h]

theorem swap_last_self {α : Type} (pre : List α) (x : α) :
    swap (pre ++ [x]) pre.length pre.length = pre ++ [x] := by
  unfold swap
  have h : (pre ++ [x])[pre.length]? = some x := by simp
  rw [h]
  simp

theorem swap_last_lt {α : Type} (pre : List α) (x : α) (j : Nat) (hj : j < pre.length) :
    swap (pre ++ [x]) pre.length j = pre.set j x ++ [pre[j]] := by
  unfold swap
  have h : (pre ++ [x])[pre.length]? = some x := by simp
  have h' : (pre ++ [x])[j]? = some pre[j] := by
    rw [List.getElem?_append_left hj, List.getElem?_eq_getElem hj]
  rw [h, h']
  simp only
  rw [List.set_append_right _ _ (Nat.le_refl _), Nat.sub_self, List.set_cons_zero,
    List.set_append_left _ _ hj]

theorem set_concat_perm {α : Type} (pre : List α) (x : α) (j : Nat) (hj : j < pre.length) :
    (pre.set j x ++ [pre[j]]).Perm (pre ++ [x]) := by
  induction pre generalizing j with
  | nil => simp at hj
  | cons a rest ih =>
    cases j with
    | zero =>
      simp only [List.set_cons_zero, List.getElem_cons_zero, List.cons_append]
      exact (((List.perm_append_singleton a rest).cons x).trans (List.Perm.swap a x rest)).trans
        ((List.perm_append_singleton x rest).symm.cons a)
    | succ k =>
      simp only [List.set_cons_succ, List.getElem_cons_succ, List.cons_append]
      exact (ih k (by simpa using hj)).cons a

theorem swap_last {α : Type} (pre : List α) (x : α) (j : Nat) (hj : j ≤ pre.length) :
    ∃ front z, (pre ++ [x])[j]? = some z ∧ front.length = pre.length ∧
      swap (pre ++ [x]) pre.length j = front ++ [z] ∧ (front ++ [z]).Perm (pre ++ [x]) := by
  rcases Nat.lt_or_eq_of_le hj with hlt | heq
  · refine ⟨pre.set j x, pre[j], ?_, by simp, swap_last_lt pre x j hlt, set_concat_perm pre x j hlt⟩
    rw [List.getElem?_append_left hlt, List.getElem?_eq_getElem hlt]
  · subst heq
    exact ⟨pre, x, by simp, rfl, swap_last_self pre x, List.Perm.refl _⟩

theorem swap_append {α : Type} (pre suf : List α) (i j : Nat) (hi : i < pre.length)
    (hj : j < pre.length) : swap (pre ++ suf) i j = swap pre i j ++ suf := by
  unfold swap
  rw [List.getElem?_append_left hi, List.getElem?_append_left hj,
    List.getElem?_eq_getElem hi, List.getElem?_eq_getElem hj]
  simp only
  rw [List.set_append_left _ _ hi, List.set_append_left _ _ (by simpa using hj)]

theorem length_swap {α : Type} (a : List α) (i j : Nat) : (swap a i j).length = a.length := by
  unfold swap
  split <;> simp

theorem shuffleFrom_append {α : Type} :
    ∀ (i : Nat) (ds : List Nat) (pre suf : List α), i < pre.length → validDraws i ds = true →
      shuffleFrom i ds (pre ++ suf) = shuffleFrom i ds pre ++ suf := by
  intro i
  induction i with
  | zero => intro ds pre suf _ _; rfl
  | succ i ih =>
    intro ds pre suf hi hv
    cases ds with
    | nil => rfl
    | cons j ds =>
      simp only [validDraws, Bool.and_eq_true, decide_eq_true_eq] at hv
      simp only [shuffleFrom]
      rw [swap_append pre suf (i + 1) j hi (by omega)]
      exact ih ds _ suf (by rw [length_swap]; omega) hv.2

theorem shuffleFrom_succ {α : Type} (i j : Nat) (ds : List Nat) (pre : List α) (x : α)
    (hlen : pre.length = i + 1) (hj : j ≤ i + 1) (hv : validDraws i ds = true) :
    ∃ front z, (pre ++ [x])[j]? = some z ∧ front.length = i + 1 ∧
      (front ++ [z]).Perm (pre ++ [x]) ∧
      swap (pre ++ [x]) (i + 1) j = front ++ [z] ∧
      shuffleFrom (i + 1) (j :: ds) (pre ++ [x]) = shuffleFrom i ds front ++ [z] := by
  obtain ⟨front, z, hz, hfl, hsw, hperm⟩ := swap_last pre x j (by omega)
  rw [hlen] at hsw hfl
  refine ⟨front, z, hz, hfl, hperm, hsw, ?_⟩
  simp only [shuffleFrom]
  rw [hsw]
  exact shuffleFrom_append i ds front [z] (by omega) hv

theorem validDraws_zero (ds : List Nat) : validDraws 0 ds = true ↔ ds = [] := by
  cases ds <;> simp [validDraws]

theorem length_shuffleFrom {α : Type} :
    ∀ (i : Nat) (ds : List Nat) (a : List α), (shuffleFrom i ds a).length = a.length := by
  intro i
  induction i with
  | zero => intro ds a; rfl
  | succ i ih =>
    intro ds a
    cases ds with
    | nil => rfl
    | cons j ds =>
      simp only [shuffleFrom]
      rw [ih, length_swap]

theorem exists_concat_of_length {α : Type} (a : List α) (n : Nat) (h : a.length = n + 1) :
    ∃ pre x, a = pre ++ [x] ∧ pre.length = n := by
  rcases List.eq_nil_or_concat a with h0 | ⟨pre, x, hx⟩
  · subst h0
    simp at h
  · rw [List.concat_eq_append] at hx
    subst hx
    exact ⟨pre, x, rfl, by simpa using h⟩

theorem shuffleFrom_perm {α : Type} :
    ∀ (i : Nat) (ds : List Nat) (a : List α), a.length = i + 1 → validDraws i ds = true →
      (shuffleFrom i ds a).Perm a := by
  intro i
  induction i with
  | zero => intro ds a _ _; exact List.Perm.refl _
  | succ i ih =>
    intro ds a hlen hv
    cases ds with
    | nil => simp [validDraws] at hv
    | cons j ds =>
      simp only [validDraws, Bool.and_eq_true, decide_eq_true_eq] at hv
      obtain ⟨pre, x, rfl, hpl⟩ := exists_concat_of_length a (i + 1) hlen
      obtain ⟨front, z, -, hfl, hperm, -, hrun⟩ := shuffleFrom_succ i j ds pre x hpl hv.1 hv.2
      rw [hrun]
      exact ((ih ds front hfl hv.2).append_right [z]).trans hperm

theorem shuffleFrom_injective {α : Type} :
    ∀ (i : Nat) (a : List α), a.length = i + 1 → a.Nodup →
      ∀ ds ds', validDraws i ds = true → validDraws i ds' = true →
        shuffleFrom i ds a = shuffleFrom i ds' a → ds = ds' := by
  intro i
  induction i with
  | zero =>
    intro a _ _ ds ds' hv hv' _
    rw [validDraws_zero] at hv hv'
    rw [hv, hv']
  | succ i ih =>
    intro a hlen hnd ds ds' hv hv' heq
    cases ds with
    | nil => simp [validDraws] at hv
    | cons j ds =>
      cases ds' with
      | nil => simp [validDraws] at hv'
      | cons j' ds' =>
        simp only [validDraws, Bool.and_eq_true, decide_eq_true_eq] at hv hv'
        obtain ⟨pre, x, rfl, hpl⟩ := exists_concat_of_length a (i + 1) hlen
        obtain ⟨front, z, hz, hfl, hperm, hsw, hrun⟩ :=
          shuffleFrom_succ i j ds pre x hpl hv.1 hv.2
        obtain ⟨front', z', hz', hfl', hperm', hsw', hrun'⟩ :=
          shuffleFrom_succ i j' ds' pre x hpl hv'.1 hv'.2
        rw [hrun, hrun'] at heq
        have hlens : (shuffleFrom i ds front).length = (shuffleFrom i ds' front').length := by
          rw [length_shuffleFrom, length_shuffleFrom, hfl, hfl']
        obtain ⟨hfront, hzz⟩ := List.append_inj heq hlens
        have hzeq : z = z' := by simpa using hzz
        subst hzeq
        have hjj : j = j' := by
          obtain ⟨hjlt, hjz⟩ := List.getElem?_eq_some_iff.mp hz
          obtain ⟨hjlt', hjz'⟩ := List.getElem?_eq_some_iff.mp hz'
          exact (hnd.getElem_inj_iff).mp (hjz.trans hjz'.symm)
        subst hjj
        have hff : front = front' := by
          have := hsw.symm.trans hsw'
          exact List.append_cancel_right this
        subst hff
        have hfnd : front.Nodup := by
          have : (front ++ [z]).Nodup := (hperm.nodup_iff).mpr hnd
          exact (List.nodup_append.mp this).1
        rw [ih front hfl hfnd ds ds' hv.2 hv'.2 hfront]

theorem shuffleFrom_surjective {α : Type} :
    ∀ (i : Nat) (a : List α), a.length = i + 1 →
      ∀ b : List α, b.Perm a → ∃ ds, validDraws i ds = true ∧ shuffleFrom i ds a = b := by
  intro i
  induction i with
  | zero =>
    intro a hlen b hb
    refine ⟨[], rfl, ?_⟩
    obtain ⟨pre, x, rfl, hpl⟩ := exists_concat_of_length a 0 hlen
    have : pre = [] := List.eq_nil_of_length_eq_zero hpl
    subst this
    simp only [List.nil_append, List.perm_singleton] at hb
    rw [hb]
    rfl
  | succ i ih =>
    intro a hlen b hb
    obtain ⟨b₀, z, rfl, hbl⟩ := exists_concat_of_length b (i + 1) (by rw [hb.length_eq, hlen])
    have hzmem : z ∈ a := hb.subset (by simp)
    obtain ⟨j, hjlt, hjz⟩ := List.getElem_of_mem hzmem
    obtain ⟨pre, x, rfl, hpl⟩ := exists_concat_of_length a (i + 1) hlen
    have hj : j ≤ i + 1 := by
      simp only [List.length_append, List.length_singleton] at hjlt
      omega
    obtain ⟨front, z', hz', hfl, hsw, hperm⟩ := swap_last pre x j (by omega)
    rw [hpl] at hsw hfl
    have hzz : z' = z := by
      rw [List.getElem?_eq_getElem hjlt, hjz] at hz'
      exact (Option.some.inj hz').symm
    subst hzz
    have hfb : b₀.Perm front :=
      (List.perm_append_right_iff [z']).mp (hb.trans hperm.symm)
    obtain ⟨ds, hv, hrun⟩ := ih front hfl b₀ hfb
    refine ⟨j :: ds, by simp [validDraws, hj, hv], ?_⟩
    simp only [shuffleFrom]
    rw [hsw, shuffleFrom_append i ds front [z'] (by omega) hv, hrun]

theorem mem_allDraws : ∀ (i : Nat) (ds : List Nat), ds ∈ allDraws i ↔ validDraws i ds = true := by
  intro i
  induction i with
  | zero =>
    intro ds
    rw [validDraws_zero]
    simp [allDraws]
  | succ i ih =>
    intro ds
    simp only [allDraws, List.mem_flatMap, List.mem_range, List.mem_map]
    constructor
    · rintro ⟨j, hj, d, hd, rfl⟩
      simp only [validDraws, Bool.and_eq_true, decide_eq_true_eq]
      exact ⟨by omega, (ih d).mp hd⟩
    · intro hv
      cases ds with
      | nil => simp [validDraws] at hv
      | cons j d =>
        simp only [validDraws, Bool.and_eq_true, decide_eq_true_eq] at hv
        exact ⟨j, by omega, d, (ih d).mpr hv.2, rfl⟩

theorem nodup_allDraws : ∀ i : Nat, (allDraws i).Nodup := by
  intro i
  induction i with
  | zero => simp [allDraws]
  | succ i ih =>
    simp only [allDraws]
    rw [List.nodup_flatMap]
    constructor
    · intro j _
      exact ih.map (fun d d' h => List.tail_eq_of_cons_eq h)
    · refine (List.nodup_range (i + 2)).pairwise_of_forall_ne ?_
      intro j _ k _ hjk
      simp only [Function.onFun]
      intro ds h₁ h₂
      simp only [List.mem_map] at h₁ h₂
      obtain ⟨d, -, rfl⟩ := h₁
      obtain ⟨d', -, h⟩ := h₂
      exact hjk (List.head_eq_of_cons_eq h).symm

theorem length_flatMap_map_cons (l : List Nat) (m : List (List Nat)) :
    (l.flatMap (fun j => m.map (fun draws => j :: draws))).length = l.length * m.length := by
  induction l with
  | nil => simp
  | cons a rest ih =>
    rw [List.flatMap_cons, List.length_append, ih, List.length_map, List.length_cons]
    ring

theorem length_allDraws : ∀ i : Nat, (allDraws i).length = (i + 1).factorial := by
  intro i
  induction i with
  | zero => rfl
  | succ i ih =>
    simp only [allDraws]
    rw [length_flatMap_map_cons, List.length_range, ih, Nat.factorial_succ (i + 1)]

theorem length_filter_eq_one {β : Type} (p : β → Bool) (l : List β) (hnd : l.Nodup) (a : β)
    (ha : a ∈ l) (hpa : p a = true) (huniq : ∀ b ∈ l, p b = true → b = a) :
    (l.filter p).length = 1 := by
  have hf : (l.filter p).Nodup := hnd.filter p
  have hmem : a ∈ l.filter p := List.mem_filter.mpr ⟨ha, hpa⟩
  have hall : ∀ b ∈ l.filter p, b = a := fun b hb =>
    huniq b (List.mem_filter.mp hb).1 (List.mem_filter.mp hb).2
  cases hl : l.filter p with
  | nil => rw [hl] at hmem; simp at hmem
  | cons b rest =>
    rw [hl] at hf hall
    cases rest with
    | nil => rfl
    | cons c rest =>
      exfalso
      have hb : b = a := hall b (by simp)
      have hc : c = a := hall c (by simp)
      rw [hb, hc] at hf
      simp at hf

theorem shuffle_nil {α : Type} (ds : List Nat) : shuffle ds ([] : List α) = [] := by
  unfold shuffle
  rfl

theorem shuffle_bijective {α : Type} (xs : List α) (hnd : xs.Nodup) :
    (∀ ds, validDraws (xs.length - 1) ds = true → (shuffle ds xs).Perm xs)
    ∧ (∀ ds ds', validDraws (xs.length - 1) ds = true → validDraws (xs.length - 1) ds' = true →
        shuffle ds xs = shuffle ds' xs → ds = ds')
    ∧ (∀ ys : List α, ys.Perm xs →
        ∃ ds, validDraws (xs.length - 1) ds = true ∧ shuffle ds xs = ys) := by
  cases xs with
  | nil =>
    refine ⟨?_, ?_, ?_⟩
    · intro ds _
      rw [shuffle_nil]
    · intro ds ds' hv hv' _
      simp only [List.length_nil, Nat.zero_sub, validDraws_zero] at hv hv'
      rw [hv, hv']
    · intro ys hys
      refine ⟨[], rfl, ?_⟩
      rw [shuffle_nil]
      exact (List.perm_nil.mp hys).symm
  | cons x rest =>
    have hlen : (x :: rest).length = ((x :: rest).length - 1) + 1 := by simp
    refine ⟨?_, ?_, ?_⟩
    · intro ds hv
      exact shuffleFrom_perm _ ds _ hlen hv
    · intro ds ds' hv hv' h
      exact shuffleFrom_injective _ _ hlen hnd ds ds' hv hv' h
    · intro ys hys
      exact shuffleFrom_surjective _ _ hlen ys hys

theorem loadFeedFor_failed_iff (users : List UserDoc) (uid : String)
    (meGetFails allGetFails : Bool) (draws : List Nat) (s : FeedState) :
    (loadFeedFor users uid meGetFails allGetFails draws s).2 = LoadOutcome.failed
      ↔ (meGetFails = true ∨ allGetFails = true) := by
  cases meGetFails <;> cases allGetFails <;> simp [loadFeedFor]

/-! ## Claims -/

/-- C1: the candidate list that `loadFeedFor` builds before shuffling is the list of the
stored profiles, in store order, whose id differs from the viewer id, whose `photoURL` is
non-empty and whose gender differs from the viewer gender `g` unless `g` is `other`. For
`g` other than `other` no candidate has gender `g`, is the viewer or lacks a photo; for
`g = other` every profile of another user with a photo is a candidate; and the list
`loadFeedFor` shuffles is this list for the viewer gender read from the viewer profile,
which is the stored gender whenever that is a non-empty string. -/
theorem collectFeedCards_visibility (uid g : String) (users : List UserDoc) :
    collectFeedCards uid g users
        = (users.filter (fun p => decide (visibleTo uid g p))).map Card.ofDoc
    ∧ (g ≠ "other" → ∀ c ∈ collectFeedCards uid g users,
          c.gender ≠ some g ∧ c.id ≠ uid ∧ ∃ url, c.photoURL = some url ∧ url ≠ "")
    ∧ (∀ p ∈ users, p.id ≠ uid → (∃ url, p.data.photoURL = some url ∧ url ≠ "") →
          Card.ofDoc p ∈ collectFeedCards uid "other" users)
    ∧ (∀ c ∈ collectFeedCards uid "other" users,
          c.id ≠ uid ∧ ∃ url, c.photoURL = some url ∧ url ≠ "")
    ∧ (∀ (draws : List Nat) (s : FeedState),
          (loadFeedFor users uid false false draws s).1.feedCards
            = shuffle draws (collectFeedCards uid (myGender (getUser users uid)) users))
    ∧ (∀ (d : UserData), getUser users uid = some d → d.gender = some g → g ≠ "" →
          myGender (getUser users uid) = g) := by
  refine ⟨collectFeedCards_eq uid g users, ?_, ?_, ?_, ?_, ?_⟩
  · intro hg c hc
    obtain ⟨p, -, ⟨h1, h2, h3⟩, rfl⟩ := (mem_collectFeedCards uid g users c).mp hc
    rcases h3 with h3 | h3
    · exact absurd h3 hg
    · exact ⟨h3, h1, h2⟩
  · intro p hp h1 h2
    exact (mem_collectFeedCards uid "other" users _).mpr ⟨p, hp, ⟨h1, h2, Or.inl rfl⟩, rfl⟩
  · intro c hc
    obtain ⟨p, -, ⟨h1, h2, -⟩, rfl⟩ := (mem_collectFeedCards uid "other" users c).mp hc
    exact ⟨h1, h2⟩
  · intro draws s
    simp [loadFeedFor, renderFeed_fst]
  · intro d hd hg hne
    simp [hd, myGender, orElse, hg, hne]

/-- C1, scenario: profiles `A` (female, photo), `B` (male, photo), `C` (female, no photo)
seen by a male viewer give exactly `[A]`. -/
theorem collectFeedCards_visibility_scenario :
    collectFeedCards "V" "male" [profileA, profileB, profileC] = [Card.ofDoc profileA] :=
  (collectFeedCards_visibility "V" "male" [profileA, profileB, profileC]).1.trans (by decide)

/-- C8, as stated, fails: profile `B` has a photo and is not the male viewer `V`, yet it is
not among the candidates of `V`, because its gender is the gender of the viewer. -/
theorem visible_iff_photo_and_not_self_fails :
    ¬ (Card.ofDoc profileB ∈ collectFeedCards "V" "male" [profileA, profileB, profileC]
        ↔ ((∃ url, profileB.data.photoURL = some url ∧ url ≠ "") ∧ profileB.id ≠ "V")) := by
  decide

/-- C8, amended: a stored profile `p` is among the feed candidates of a viewer with gender
`g` if and only if `p.photoURL` is non-empty, `p` is not the viewer's own profile, and `g`
is `other` or the gender of `p` differs from `g`. -/
theorem candidate_iff_visible (uid g : String) (users : List UserDoc) (p : UserDoc)
    (hp : p ∈ users) :
    Card.ofDoc p ∈ collectFeedCards uid g users
      ↔ ((∃ url, p.data.photoURL = some url ∧ url ≠ "") ∧ p.id ≠ uid ∧
          (g = "other" ∨ p.data.gender ≠ some g)) := by
  rw [mem_collectFeedCards]
  constructor
  · rintro ⟨q, -, ⟨h1, h2, h3⟩, hq⟩
    have := ofDoc_injective hq
    subst this
    exact ⟨h2, h1, h3⟩
  · rintro ⟨h2, h1, h3⟩
    exact ⟨p, hp, ⟨h1, h2, h3⟩, rfl⟩

/-- C8, amended, at the scenario: `A` is a candidate of the male viewer `V`. -/
theorem candidate_iff_visible_witness :
    profileA ∈ [profileA, profileB, profileC] ∧
    Card.ofDoc profileA ∈ collectFeedCards "V" "male" [profileA, profileB, profileC] :=
  ⟨by decide,
   (candidate_iff_visible "V" "male" [profileA, profileB, profileC] profileA (by decide)).mpr
     (by decide)⟩

/-- C3: `skipTop` moves the cursor from `cursor` to `cursor + 1` when
`cursor < length(candidates)`, reports exhaustion and keeps the cursor when
`cursor >= length(candidates)`, and in both cases leaves the candidates and the Like Store
as they are. A skip at `cursor = length - 1` gives `cursor = length`; then there is no
current card and a further skip is the exhausted case. -/
theorem skipTop_spec (s : FeedState) :
    (s.currentIndex < s.feedCards.length →
        skipTop s = ({ s with currentIndex := s.currentIndex + 1 }, SkipOutcome.advanced))
    ∧ (s.feedCards.length ≤ s.currentIndex → skipTop s = (s, SkipOutcome.feedExhausted))
    ∧ (skipTop s).1.feedCards = s.feedCards
    ∧ (skipTop s).1.likes = s.likes
    ∧ (s.currentIndex + 1 = s.feedCards.length →
        (skipTop s).1.currentIndex = s.feedCards.length
        ∧ currentCard (skipTop s).1 = none
        ∧ skipTop (skipTop s).1 = ((skipTop s).1, SkipOutcome.feedExhausted)) := by
  have hadv : s.currentIndex < s.feedCards.length →
      skipTop s = ({ s with currentIndex := s.currentIndex + 1 }, SkipOutcome.advanced) := by
    intro h
    simp [skipTop, renderFeed_fst, Nat.not_le.mpr h]
  have hex : s.feedCards.length ≤ s.currentIndex → skipTop s = (s, SkipOutcome.feedExhausted) := by
    intro h
    simp [skipTop, h]
  refine ⟨hadv, hex, ?_, ?_, ?_⟩
  · rcases Nat.lt_or_ge s.currentIndex s.feedCards.length with h | h
    · rw [hadv h]
    · rw [hex h]
  · rcases Nat.lt_or_ge s.currentIndex s.feedCards.length with h | h
    · rw [hadv h]
    · rw [hex h]
  · intro h
    rw [hadv (by omega)]
    refine ⟨h, ?_, ?_⟩
    · simp [currentCard, h]
    · simp [skipTop, h]

/-- C3 at the sample session: two skips exhaust the two cards, a third one is refused. -/
theorem skipTop_spec_witness :
    (skipTop sampleState).1.currentIndex = 1
    ∧ (skipTop (skipTop sampleState).1).1.currentIndex = 2
    ∧ currentCard (skipTop (skipTop sampleState).1).1 = none
    ∧ (skipTop (skipTop (skipTop sampleState).1).1).2 = SkipOutcome.feedExhausted :=
  ⟨(congrArg (fun r => r.1.currentIndex) ((skipTop_spec sampleState).1 (by decide))).trans
     (by decide),
   ((skipTop_spec (skipTop sampleState).1).2.2.2.2 (by decide)).1.trans (by decide),
   ((skipTop_spec (skipTop sampleState).1).2.2.2.2 (by decide)).2.1,
   by rw [((skipTop_spec (skipTop sampleState).1).2.2.2.2 (by decide)).2.2]⟩

/-- C5, as stated, fails: with a Profile Store that holds no record of the viewer `V`,
`loadFeedFor` does not fail; it loads the candidates as for a viewer of gender `other`. -/
theorem loadFeedFor_without_profile_loads :
    getUser [profileA, profileB, profileC] "V" = none
    ∧ loadFeedFor [profileA, profileB, profileC] "V" false false [1] freshState
        = ({ feedCards := [Card.ofDoc profileA, Card.ofDoc profileB], currentIndex := 0,
             currentUserData := none, likes := [] }, LoadOutcome.loaded) := by
  decide

/-- C5, amended: when the viewer's own id has no record in the Profile Store and the two
store reads succeed, `loadFeedFor` does not fail: it sets the cached viewer profile to null,
takes `other` as the viewer gender, loads the shuffled candidates of a viewer of gender
`other` (every profile of another user that has a photo) and sets the cursor to 0. -/
theorem loadFeedFor_missing_profile (users : List UserDoc) (uid : String) (draws : List Nat)
    (s : FeedState) (hme : getUser users uid = none) :
    loadFeedFor users uid false false draws s
        = ({ feedCards := shuffle draws (collectFeedCards uid "other" users),
             currentIndex := 0, currentUserData := none, likes := s.likes },
           LoadOutcome.loaded)
    ∧ myGender (getUser users uid) = "other" := by
  constructor
  · simp [loadFeedFor, renderFeed_fst, hme, myGender]
  · rw [hme]
    rfl

/-- C5, amended, at a store without the viewer: the feed holds `A` and `B`. -/
theorem loadFeedFor_missing_profile_witness :
    getUser [profileA, profileB, profileC] "V" = none
    ∧ (loadFeedFor [profileA, profileB, profileC] "V" false false [1] freshState).2
        = LoadOutcome.loaded :=
  ⟨by decide,
   by rw [(loadFeedFor_missing_profile [profileA, profileB, profileC] "V" [1] freshState
            (by decide)).1]⟩

/-- C7: the profiles that `renderFeed` renders are `candidates[cursor .. min(cursor + 3,
length))` in order; there are at most 3 of them, none when `cursor >= length`, and the call
leaves the state, in particular the cursor and the candidate list, unchanged. -/
theorem renderFeed_visibleStack (s : FeedState) :
    (renderFeed s).2.map (fun r => r.profile)
        = (s.feedCards.take (min (s.currentIndex + 3) s.feedCards.length)).drop s.currentIndex
    ∧ (renderFeed s).2.length = min (s.currentIndex + 3) s.feedCards.length - s.currentIndex
    ∧ (renderFeed s).2.length ≤ 3
    ∧ (s.feedCards.length ≤ s.currentIndex → (renderFeed s).2 = [])
    ∧ (∀ k, k < (renderFeed s).2.length →
          ((renderFeed s).2.map (fun r => r.profile))[k]? = s.feedCards[s.currentIndex + k]?)
    ∧ (renderFeed s).1 = s := by
  have hp := renderFeed_profiles s
  unfold visibleStack maxStack at hp
  have hlen : (renderFeed s).2.length
      = min (s.currentIndex + 3) s.feedCards.length - s.currentIndex := by
    have := congrArg List.length hp
    simpa using this
  refine ⟨hp, hlen, by omega, ?_, ?_, renderFeed_fst s⟩
  · intro h
    apply List.eq_nil_of_length_eq_zero
    omega
  · intro k hk
    rw [hp, List.getElem?_drop, List.getElem?_take]
    rw [if_pos (by omega)]

/-- C7 at a feed of five cards with the cursor on the second one. -/
theorem renderFeed_visibleStack_witness :
    (renderFeed { sampleState with
        feedCards := [Card.ofDoc profileA, Card.ofDoc profileB, Card.ofDoc profileV,
                      Card.ofDoc profileA, Card.ofDoc profileB],
        currentIndex := 1 }).2.map (fun r => r.profile)
      = [Card.ofDoc profileB, Card.ofDoc profileV, Card.ofDoc profileA] :=
  (renderFeed_visibleStack _).1.trans (by decide)

/-- C2: when `t` is the current card, `v` is signed in, the store answers and holds no
record under the key of `(t, v)`, the first `doLikeTop` appends exactly one record
`{likedId: t, likedBy: v}` under that key and advances the cursor by 1 (outcome `liked`).
A second `doLikeTop` by `v` in a state where `t` is the current card and the Like Store is
the one the first call left finds that record and changes neither the Like Store nor the
cursor (outcome `alreadyLiked`). Afterwards the store holds exactly one entry under the
key, it is the original record, and (when every older entry sits under the key of its own
pair) it is the only record of the pair `(t, v)`. -/
theorem doLikeTop_idempotent (env env₂ : LikeEnv) (s s₂ : FeedState) (t : Card) (me : AuthUser)
    (hcur : currentCard s = some t) (hme : env.me = some me)
    (hget : env.getFails = false) (hset : env.setFails = false)
    (habsent : getLike s.likes (likeDocId t.id me.uid) = none)
    (hcur₂ : currentCard s₂ = some t) (hme₂ : env₂.me = some me)
    (hget₂ : env₂.getFails = false)
    (hlikes₂ : s₂.likes = (doLikeTop env s).1.likes) :
    doLikeTop env s
        = ({ s with likes := s.likes ++ [(likeDocId t.id me.uid, likeData env s t me)],
                    currentIndex := s.currentIndex + 1 }, LikeOutcome.liked)
    ∧ (likeData env s t me).likedId = t.id ∧ (likeData env s t me).likedBy = me.uid
    ∧ (doLikeTop env s).1.likes.length = s.likes.length + 1
    ∧ doLikeTop env₂ s₂ = (s₂, LikeOutcome.alreadyLiked)
    ∧ getLike (doLikeTop env₂ s₂).1.likes (likeDocId t.id me.uid) = some (likeData env s t me)
    ∧ (doLikeTop env₂ s₂).1.likes.filter (fun entry => entry.1 == likeDocId t.id me.uid)
        = [(likeDocId t.id me.uid, likeData env s t me)]
    ∧ (keyedByPair s.likes →
        likesOfPair (doLikeTop env₂ s₂).1.likes t.id me.uid
          = [(likeDocId t.id me.uid, likeData env s t me)]) := by
  have h1 : doLikeTop env s
      = ({ s with likes := s.likes ++ [(likeDocId t.id me.uid, likeData env s t me)],
                  currentIndex := s.currentIndex + 1 }, LikeOutcome.liked) := by
    rw [doLikeTop_of_current env s t me hcur hme, hget, hset, habsent]
    simp [setLike_of_absent _ _ _ habsent]
  have hl : s₂.likes = s.likes ++ [(likeDocId t.id me.uid, likeData env s t me)] := by
    rw [hlikes₂, h1]
  have hfound : getLike s₂.likes (likeDocId t.id me.uid) = some (likeData env s t me) := by
    rw [hl]
    exact getLike_append_new _ _ _ habsent
  have h2 : doLikeTop env₂ s₂ = (s₂, LikeOutcome.alreadyLiked) := by
    rw [doLikeTop_of_current env₂ s₂ t me hcur₂ hme₂, hget₂, hfound]
    simp
  refine ⟨h1, rfl, rfl, ?_, h2, ?_, ?_, ?_⟩
  · rw [h1]
    simp
  · rw [h2]
    exact hfound
  · rw [h2]
    show s₂.likes.filter _ = _
    rw [hl]
    exact filter_key_append_new _ _ _ habsent
  · intro hk
    rw [h2]
    show likesOfPair s₂.likes t.id me.uid = _
    rw [hl]
    have h0 := likesOfPair_of_absent s.likes t.id me.uid hk habsent
    unfold likesOfPair at h0 ⊢
    rw [List.filter_append, h0]
    simp [likeData]

/-- C2 at the sample session: `V` likes `A`, and likes `A` again after `A` has become the
current card once more. -/
theorem doLikeTop_idempotent_witness :
    (doLikeTop sampleEnv sampleState).2 = LikeOutcome.liked
    ∧ (doLikeTop sampleEnv sampleState).1.currentIndex = 1
    ∧ doLikeTop sampleEnv { (doLikeTop sampleEnv sampleState).1 with currentIndex := 0 }
        = ({ (doLikeTop sampleEnv sampleState).1 with currentIndex := 0 },
           LikeOutcome.alreadyLiked)
    ∧ likesOfPair (doLikeTop sampleEnv sampleState).1.likes "A" "V"
        = [("A_V", { likedId := "A", likedBy := "V", likedByName := "Vic",
                     timestamp := 1700000000 })] :=
  have h := doLikeTop_idempotent sampleEnv sampleEnv sampleState
    { (doLikeTop sampleEnv sampleState).1 with currentIndex := 0 }
    (Card.ofDoc profileA) sampleUser (by decide) (by decide) (by decide) (by decide)
    (by decide) (by decide) (by decide) (by decide) (by decide)
  ⟨by decide, by decide, h.2.2.2.2.1, by decide⟩

/-- C6, failing input: the bound `cursor <= length(candidates)` of the cursor invariant is
broken by `doLikeTop`, which tests the bound before its two `await`s and runs
`currentIndex++` after them without testing it again. From the sample session (two cards,
cursor 0): a skip, a click on like at cursor 1, a second skip while the like awaits
`docRef.get()`, then the two promises of the like settle; the cursor is 3 with 2
candidates. Likewise two clicks on like on the last card, the second before the first has
settled, move the cursor from 1 to 3. The candidate list is unchanged in both runs. -/
theorem cursor_exceeds_length_on_overlap :
    sampleState.currentIndex = 0
    ∧ sampleState.feedCards.length = 2
    ∧ (pageRun { state := sampleState, suspended := [] }
        [Event.clickSkip, Event.clickLike (some sampleUser), Event.clickSkip,
         Event.settle 0 false 1700000000, Event.settle 0 false 1700000000]).state.currentIndex
        = 3
    ∧ (pageRun { state := sampleState, suspended := [] }
        [Event.clickSkip, Event.clickLike (some sampleUser), Event.clickSkip,
         Event.settle 0 false 1700000000, Event.settle 0 false 1700000000]).state.feedCards
        = sampleState.feedCards
    ∧ (pageRun { state := sampleState, suspended := [] }
        [Event.clickSkip, Event.clickLike (some sampleUser), Event.clickLike (some sampleUser),
         Event.settle 0 false 1700000000, Event.settle 1 false 1700000000,
         Event.settle 0 false 1700000001, Event.settle 0 false 1700000002]).state.currentIndex
        = 3 := by
  decide

/-- C9: the like document id `t ++ "_" ++ v` identifies the pair when the ids contain no
`_`: equal ids come from equal targets and equal viewers. Hence, in a store whose records
sit under the ids of their own pairs, `doLikeTop` reports `alreadyLiked` for the current
card `t` and the viewer `v` only if the store holds a record of the pair `(t, v)` itself. -/
theorem likeDocId_identifies_pair (t₁ v₁ t₂ v₂ : String)
    (ht₁ : noUnderscore t₁) (hv₁ : noUnderscore v₁)
    (ht₂ : noUnderscore t₂) (hv₂ : noUnderscore v₂) :
    (likeDocId t₁ v₁ = likeDocId t₂ v₂ → t₁ = t₂ ∧ v₁ = v₂)
    ∧ ∀ (env : LikeEnv) (s : FeedState) (t : Card) (me : AuthUser),
        currentCard s = some t → env.me = some me → t.id = t₁ → me.uid = v₁ →
        keyedByPair s.likes →
        (∀ entry ∈ s.likes, noUnderscore entry.2.likedId ∧ noUnderscore entry.2.likedBy) →
        (doLikeTop env s).2 = LikeOutcome.alreadyLiked →
        ∃ entry ∈ s.likes, entry.2.likedId = t₁ ∧ entry.2.likedBy = v₁ := by
  have _hv₁ := hv₁
  have _hv₂ := hv₂
  refine ⟨likeDocId_inj t₁ v₁ t₂ v₂ ht₁ ht₂, ?_⟩
  intro env s t me hcur hme htid hmid hk hclean hout
  rw [doLikeTop_of_current env s t me hcur hme] at hout
  cases hfind : (s.likes.find? (fun entry => entry.1 == likeDocId t.id me.uid)) with
  | none =>
    have hnone : getLike s.likes (likeDocId t.id me.uid) = none := by
      simp [getLike, hfind]
    rw [hnone] at hout
    by_cases hg : env.getFails = true
    · simp [hg] at hout
    · by_cases hs : env.setFails = true
      · simp [hg, hs] at hout
      · simp [hg, hs] at hout
  | some entry =>
    have hmem : entry ∈ s.likes := List.mem_of_find?_eq_some hfind
    have hkey : entry.1 = likeDocId t.id me.uid := by
      have := List.find?_some hfind
      simpa using this
    have hpair := hk entry hmem
    rw [hkey, htid, hmid] at hpair
    obtain ⟨h1, h2⟩ := likeDocId_inj t₁ v₁ _ _ ht₁ (hclean entry hmem).1 hpair
    exact ⟨entry, hmem, h1.symm, h2.symm⟩

/-- C9 at two sample pairs: the like document ids of `(A, V)` and `(B, V)` differ. -/
theorem likeDocId_identifies_pair_witness :
    noUnderscore "A" ∧ noUnderscore "V" ∧ noUnderscore "B" ∧
    likeDocId "A" "V" ≠ likeDocId "B" "V" :=
  ⟨by decide, by decide, by decide,
   fun h => absurd ((likeDocId_identifies_pair "A" "V" "B" "V" (by decide) (by decide)
      (by decide) (by decide)).1 h).1 (by decide)⟩

/-- C10: for every string `s`, `escapeHtml(s)` contains none of the characters
`<`, `>`, `"`, `'` and the backtick; every `&` in it begins one of the entities `&amp;`,
`&lt;`, `&gt;`, `&quot;`, `&#39;`, `&#96;`; a string that contains none of the six special
characters is returned unchanged; and the empty string gives the empty string. -/
theorem escapeHtml_neutralises (s : String) :
    (∀ c ∈ (escapeHtml s).data,
        c ≠ '<' ∧ c ≠ '>' ∧ c ≠ dquote ∧ c ≠ squote ∧ c ≠ btick)
    ∧ (∀ i, (escapeHtml s).data[i]? = some '&' →
        ∃ e ∈ entities, e.data <+: (escapeHtml s).data.drop i)
    ∧ ((∀ c ∈ s.data, c ≠ '&' ∧ c ≠ '<' ∧ c ≠ '>' ∧ c ≠ dquote ∧ c ≠ squote ∧ c ≠ btick) →
        escapeHtml s = s)
    ∧ escapeHtml "" = "" := by
  refine ⟨?_, ?_, ?_, rfl⟩
  · intro c hc
    rw [escapeHtml_data] at hc
    have := flatMap_replaceChar_clean s.data c hc
    simpa using this
  · intro i hi
    rw [escapeHtml_data] at hi ⊢
    exact flatMap_replaceChar_amp s.data i hi
  · intro h
    apply String.ext
    rw [escapeHtml_data]
    apply flatMap_replaceChar_plain
    intro c hc
    have := h c hc
    simp only [htmlSpecial, List.mem_cons, List.mem_singleton, List.not_mem_nil, or_false]
    tauto

/-- C10 at a sample string with all six special characters, and at a plain one. -/
theorem escapeHtml_neutralises_witness :
    escapeHtml "<b title=\"R&D\">it's `x`</b>"
        = "&lt;b title=&quot;R&amp;D&quot;&gt;it&#39;s &#96;x&#96;&lt;/b&gt;"
    ∧ escapeHtml "Ann, 27" = "Ann, 27" :=
  ⟨by decide, (escapeHtml_neutralises "Ann, 27").2.2.1 (by decide)⟩

/-- C4: for every list of `n` pairwise distinct candidates, with the random source given
as the sequence of draws `j_i ∈ {0, ..., i}` for `i = n - 1` down to `1`: every draw
sequence makes the shuffle of `loadFeedFor` return a permutation of the list, and every
permutation of the list is returned for exactly one draw sequence. There are `n!` draw
sequences, so each of the `n!` orderings comes from exactly one of `n!` equally likely
draw sequences. -/
theorem shuffle_uniform (xs : List Card) (hnd : xs.Nodup) :
    (∀ ds, validDraws (xs.length - 1) ds = true → (shuffle ds xs).Perm xs)
    ∧ (∀ ys : List Card, ys.Perm xs →
        ∃! ds, validDraws (xs.length - 1) ds = true ∧ shuffle ds xs = ys)
    ∧ (∀ ds, ds ∈ allDraws (xs.length - 1) ↔ validDraws (xs.length - 1) ds = true)
    ∧ (allDraws (xs.length - 1)).Nodup
    ∧ (allDraws (xs.length - 1)).length = xs.length.factorial
    ∧ (∀ ys : List Card, ys.Perm xs →
        ((allDraws (xs.length - 1)).filter
          (fun ds => decide (shuffle ds xs = ys))).length = 1) := by
  obtain ⟨hperm, hinj, hsurj⟩ := shuffle_bijective xs hnd
  have hex : ∀ ys : List Card, ys.Perm xs →
      ∃! ds, validDraws (xs.length - 1) ds = true ∧ shuffle ds xs = ys := by
    intro ys hys
    obtain ⟨ds, hv, hrun⟩ := hsurj ys hys
    refine ⟨ds, ⟨hv, hrun⟩, ?_⟩
    rintro ds' ⟨hv', hrun'⟩
    exact hinj ds' ds hv' hv (hrun'.trans hrun.symm)
  refine ⟨hperm, hex, mem_allDraws _, nodup_allDraws _, ?_, ?_⟩
  · rw [length_allDraws]
    cases xs with
    | nil => rfl
    | cons x rest => simp
  · intro ys hys
    obtain ⟨ds, ⟨hv, hrun⟩, huniq⟩ := hex ys hys
    refine length_filter_eq_one _ _ (nodup_allDraws _) ds ((mem_allDraws _ _).mpr hv)
      (by simpa using hrun) ?_
    intro ds' hmem hp
    exact huniq ds' ⟨(mem_allDraws _ _).mp hmem, by simpa using hp⟩

/-- C4 at the three cards `A`, `B`, `V`: of the six draw sequences exactly one yields the
reversed order. -/
theorem shuffle_uniform_witness :
    [Card.ofDoc profileA, Card.ofDoc profileB, Card.ofDoc profileV].Nodup
    ∧ ((allDraws 2).filter (fun ds =>
          decide (shuffle ds [Card.ofDoc profileA, Card.ofDoc profileB, Card.ofDoc profileV]
            = [Card.ofDoc profileV, Card.ofDoc profileB, Card.ofDoc profileA]))).length = 1 :=
  ⟨by decide,
   (shuffle_uniform [Card.ofDoc profileA, Card.ofDoc profileB, Card.ofDoc profileV]
      (by decide)).2.2.2.2.2 _ (by decide)⟩

end FaceSwipe
